import Mathlib

/-!
# Verification of the point-processing server

Shallow embedding of the repository's core: the four point-combination
algorithms (`points.py`, `distance.py`) and the request dispatcher /
per-message connection-handler step (`server.py`).

Coordinates are modelled as rationals (the protocol carries JSON numbers,
the spec's data model calls them real-valued pairs).  Python's
`math.sqrt`-based Euclidean distance is embedded through the squared
distance `calcDistSq`; since the real square root is strictly monotone on
nonnegative numbers, minimisation and tie-breaking by `calcDistSq` agree
exactly with minimisation by Euclidean distance (proved below in
`calcDistSq_lt_iff_sqrt_lt` / `calcDistSq_le_iff_sqrt_le`).

Python exceptions are modelled with `Except`: `process_points` raising
`ValueError` becomes `Except.error (PyErr.valueError _)`; a `try/except
PointsProcessorException` block becomes a `match` that converts only
`PyErr.pointsProcessor` errors and re-raises the rest.
-/

namespace PointsServer

/-- A point, per the data model: an ordered pair of coordinates,
equality coordinatewise. -/
abbrev Point := ℚ × ℚ

/-- Default value used with `List.getD` when embedding Python's
`points[i]`; every use below is at an in-range index, so the default is
never selected. -/
def origin : Point := (0, 0)

/-- Embeds `points.add_two_points`: coordinatewise sum of two points. -/
def add_two_points (p1 p2 : Point) : Point :=
  (p1.1 + p2.1, p1.2 + p2.2)

/-- Squared Euclidean distance, embedding the comparison behaviour of
`distance.calc_dist` (which returns `math.sqrt` of this value); see the
monotonicity lemmas below for the exact correspondence of orderings. -/
def calcDistSq (p1 p2 : Point) : ℚ :=
  (p2.1 - p1.1) ^ 2 + (p2.2 - p1.2) ^ 2

/-- Embeds Python's builtin `min(iterable, key=key)` restricted to a
nonempty list written as head `x` and tail `xs`: fold left, replacing the
accumulator only when the candidate's key is strictly smaller, so the
first element attaining the minimal key is returned. -/
def pyMin {K : Type} [LinearOrder K] (key : Point → K) (x : Point) (xs : List Point) : Point :=
  xs.foldl (fun acc q => if key q < key acc then q else acc) x

/-- `FirstMin key l q` says that `q` occurs in `l`, its key is minimal in
`l`, and every element strictly before that occurrence has a strictly
larger key — i.e. `q` is the first minimiser of `key` in `l`, which is
what Python's `min` returns. -/
def FirstMin {K : Type} [LinearOrder K] (key : Point → K) (l : List Point) (q : Point) : Prop :=
  ∃ l₁ l₂, l = l₁ ++ q :: l₂ ∧ (∀ r ∈ l, key q ≤ key r) ∧ (∀ r ∈ l₁, key q < key r)

/-- Embeds `distance.find_closest(target, points)`: `None` when the list
has at most one element; otherwise drop every point value-equal to
`target` and return the first remaining point of minimal Euclidean
distance to `target`, or `None` when nothing remains. -/
def find_closest (target : Point) (points : List Point) : Option Point :=
  if points.length ≤ 1 then none
  else
    match points.filter (fun p => p ≠ target) with
    | [] => none
    | q :: qs => some (pyMin (fun p => calcDistSq target p) q qs)

/-- Embeds `points.process_all_points` (method `original`): for each
point, add the closest other point when one exists (the Python guard
`if closest:` distinguishes exactly `None` from a pair, a pair being
always truthy), else keep the point unchanged. -/
def process_all_points (points : List Point) : List Point :=
  points.map (fun p =>
    match find_closest p points with
    | some closest => add_two_points p closest
    | none => p)

/-- Embeds `points.process_sequential` (method `sequential`): empty input
gives an empty result; otherwise element `i` is `points[i] +
points[(i+1) % n]`. -/
def process_sequential (points : List Point) : List Point :=
  if points.isEmpty then []
  else
    (List.range points.length).map (fun i =>
      add_two_points (points.getD i origin) (points.getD ((i + 1) % points.length) origin))

/-- Embeds `points.process_with_min_point`: empty input gives an empty
result; otherwise pick the special point — with `use_sum` the first point
of minimal coordinate sum, without it the first point minimal in the
lexicographic order on `(x, y)` (Python's tuple key `(p[0], p[1])`) —
and add it to every point. -/
def process_with_min_point (points : List Point) (use_sum : Bool) : List Point :=
  match points with
  | [] => []
  | q :: qs =>
    let special :=
      if use_sum then pyMin (fun p => p.1 + p.2) q qs
      else pyMin (fun p => toLex (p.1, p.2)) q qs
    (q :: qs).map (fun p => add_two_points p special)

/-- Python exceptions relevant to the dispatcher.  `valueError` embeds
the builtin `ValueError` that `points.process_points` raises for an
unknown method. -/
inductive PyErr where
  | valueError (msg : String)
  | pointsProcessor (msg : String)
deriving DecidableEq, Repr

/-- `str(e)` on either exception: its message. -/
def PyErr.msg : PyErr → String
  | .valueError m => m
  | .pointsProcessor m => m

/-- Modelled from the spec: the class `PointsProcessorException` is
imported from `exceptions.py`, which is not under src/.  Per the imports
in `main.py` it is the application's own exception family
(`InvalidInputFormatException`, `EmptyPointsListException`,
`InvalidMethodException`, …); `main.py` raises `InvalidNumberException`
after catching a builtin `ValueError`, and the spec's §7 propagation
policy has algorithm-level faults caught at the Connection Handler, so
these application exceptions are modelled as distinct from the builtin
`ValueError`: `except PointsProcessorException` does not catch a
`ValueError`. -/
def PyErr.isPointsProcessor : PyErr → Bool
  | .valueError _ => false
  | .pointsProcessor _ => true

/-- Embeds `points.process_points(points, method)`: dispatch on the
method name, raising `ValueError` for an unknown method. -/
def process_points (points : List Point) (method : String) : Except PyErr (List Point) :=
  if method = "original" then Except.ok (process_all_points points)
  else if method = "sequential" then Except.ok (process_sequential points)
  else if method = "min_sum" then Except.ok (process_with_min_point points true)
  else if method = "min_x" then Except.ok (process_with_min_point points false)
  else Except.error (PyErr.valueError ("Неизвестный метод: " ++ method))

/-- A decoded request, per the data model: the `action` verb together
with the optional `points` and `method` fields (a Python dict read with
`request_data.get`, so any field may be absent). -/
structure Request where
  action : Option String
  points : Option (List Point)
  method : Option String
deriving DecidableEq, Repr

/-- Response status, per the data model: `{success, error}`. -/
inductive Status where
  | success
  | error
deriving DecidableEq, Repr

/-- The `extra_info` payload built by `TaskServer.handle_request` for the
`min_sum`/`min_x` methods: the strategy name and the reference point the
server reports (`None` when the point list was empty). -/
structure ExtraInfo where
  type : String
  point : Option Point
deriving DecidableEq, Repr

/-- The diagnostic payload of a successful `test` action: the distance
check (embedded as its squared value, see `calcDistSq`), the
nearest-neighbour check, the coordinatewise sum check, and the result of
each of the four methods on the fixed test point set. -/
structure TestDiag where
  distanceSq : ℚ
  closest : Option Point
  sum : Point
  methodsResults : List (String × List Point)
deriving DecidableEq, Repr

/-- A response, per the data model: status plus the optional `message`,
`result`, `extra_info` and `test` diagnostic fields. -/
structure Response where
  status : Status
  message : Option String
  result : Option (List Point)
  extraInfo : Option ExtraInfo
  diag : Option TestDiag
deriving DecidableEq, Repr

/-- Embeds `min(points, key=lambda p: p[0] + p[1]) if points else None`
from `TaskServer.handle_request` (the `min_sum` reporting branch). -/
def server_min_sum_point (points : List Point) : Option Point :=
  match points with
  | [] => none
  | q :: qs => some (pyMin (fun p => p.1 + p.2) q qs)

/-- Embeds `min(points, key=lambda p: p[0]) if points else None` from
`TaskServer.handle_request` (the `min_x` reporting branch): note the key
is the x-coordinate alone, with no tie-break on y. -/
def server_min_x_point (points : List Point) : Option Point :=
  match points with
  | [] => none
  | q :: qs => some (pyMin (fun p => p.1) q qs)

/-- Python's f-string rendering of the `action` value inside the
unknown-action message: `None` when the field is absent, else the string
itself. -/
def pyShowAction : Option String → String
  | none => "None"
  | some s => s

/-- Embeds the `test` branch of `TaskServer.handle_request`: the fixed
diagnostic computations, with the four `process_points` calls sequenced
in the exception monad exactly as the Python loop would propagate an
exception (none occurs: all four methods are known). -/
def handle_test : Except PyErr Response := do
  let methodsTestPoints : List Point := [(1, 1), (4, 5), (2, 3)]
  let r1 ← process_points methodsTestPoints "original"
  let r2 ← process_points methodsTestPoints "sequential"
  let r3 ← process_points methodsTestPoints "min_sum"
  let r4 ← process_points methodsTestPoints "min_x"
  pure ⟨Status.success, none, none, none,
    some ⟨calcDistSq (0, 0) (3, 4),
          find_closest (0, 0) [(0, 0), (2, 0), (5, 5)],
          add_two_points (1, 2) (3, 4),
          [("original", r1), ("sequential", r2), ("min_sum", r3), ("min_x", r4)]⟩⟩

/-- Embeds `TaskServer.handle_request` (the Request Dispatcher), minus
the logging and the simulated-latency sleep, which have no effect on the
returned value.  The result is `Except.error e` exactly when the Python
method would raise `e` past its own boundary: the `process` branch wraps
only `process_points` errors matching `except PointsProcessorException`
into an error response and re-raises the rest.  There is no `exit`
branch: `exit` falls through to the unknown-action reply. -/
def handle_request (req : Request) : Except PyErr Response :=
  if req.action = some "process" then
    let points := req.points.getD []
    let method := req.method.getD "original"
    match process_points points method with
    | Except.ok result =>
      let extra : Option ExtraInfo :=
        if method = "min_sum" then some ⟨"min_sum", server_min_sum_point points⟩
        else if method = "min_x" then some ⟨"min_x", server_min_x_point points⟩
        else none
      Except.ok ⟨Status.success, none, some result, extra, none⟩
    | Except.error e =>
      if e.isPointsProcessor then Except.ok ⟨Status.error, some e.msg, none, none, none⟩
      else Except.error e
  else if req.action = some "test" then handle_test
  else if req.action = some "ping" then
    Except.ok ⟨Status.success, some "pong", none, none, none⟩
  else
    Except.ok ⟨Status.error, some ("Неизвестное действие: " ++ pyShowAction req.action),
      none, none, none⟩

/-- Embeds one iteration of the receive/dispatch/reply loop of
`TaskServer.handle_client_connection` for an already decoded request:
the response written to the socket, and whether the connection is closed
afterwards.  When `handle_request` raises, the `except Exception` arm
replies with an error message and — the `exit` check being skipped by
the exception — never closes; the loop breaks on `exit` only after a
normal reply was sent. -/
def handle_message (req : Request) : Response × Bool :=
  match handle_request req with
  | Except.ok resp => (resp, req.action == some "exit")
  | Except.error e =>
    (⟨Status.error, some ("Ошибка: " ++ e.msg), none, none, none⟩, false)

end PointsServer

namespace PointsServer

example : process_points [(1, 1), (4, 5), (2, 3)] "sequential" =
    Except.ok [(5, 6), (6, 8), (3, 4)] := by with_unfolding_all rfl

example : process_all_points [(0, 0), (2, 0), (5, 5)] =
    [(2, 0), (2, 0), (7, 5)] := by with_unfolding_all rfl

example : process_with_min_point [(0, 5), (0, 1)] false = [(0, 6), (0, 2)] := by
  with_unfolding_all rfl

example : process_points [] "min_sum" = Except.ok [] := by with_unfolding_all rfl

example : process_points [(1, 1)] "bogus" =
    Except.error (PyErr.valueError "Неизвестный метод: bogus") := by with_unfolding_all rfl

example : handle_message ⟨some "exit", none, none⟩ =
    (⟨Status.error, some "Неизвестное действие: exit", none, none, none⟩, true) := by
  with_unfolding_all rfl

example : handle_request ⟨some "process", some [], some "min_sum"⟩ =
    Except.ok ⟨Status.success, none, some [], some ⟨"min_sum", none⟩, none⟩ := by
  with_unfolding_all rfl

example : handle_message ⟨some "process", some [(0, 0)], some "bogus"⟩ =
    (⟨Status.error, some "Ошибка: Неизвестный метод: bogus", none, none, none⟩, false) := by
  with_unfolding_all rfl

example : handle_request ⟨some "ping", none, none⟩ =
    Except.ok ⟨Status.success, some "pong", none, none, none⟩ := by with_unfolding_all rfl

example : handle_request ⟨some "process", some [(0, 5), (0, 1)], some "min_x"⟩ =
    Except.ok ⟨Status.success, none, some [(0, 6), (0, 2)],
      some ⟨"min_x", some (0, 5)⟩, none⟩ := by with_unfolding_all rfl

/-- `List.getD` at an in-range index is plain indexing. -/
theorem getD_lt {α : Type} (l : List α) (i : ℕ) (h : i < l.length) (d : α) :
    l.getD i d = l[i] := by
  rw [List.getD_eq_getElem?_getD, List.getElem?_eq_getElem h, Option.getD_some]

/-- One step of Python's `min` fold. -/
theorem pyMin_cons {K : Type} [LinearOrder K] (key : Point → K) (x q : Point)
    (qs : List Point) :
    pyMin key x (q :: qs) = pyMin key (if key q < key x then q else x) qs := rfl

/-- Python's `min(x :: xs, key=key)` returns the first element attaining
the minimal key: `pyMin` satisfies the `FirstMin` specification. -/
theorem pyMin_firstMin {K : Type} [LinearOrder K] (key : Point → K) (x : Point)
    (xs : List Point) : FirstMin key (x :: xs) (pyMin key x xs) := by
  induction xs generalizing x with
  | nil =>
    refine ⟨[], [], rfl, ?_, ?_⟩
    · intro r hr
      rw [List.mem_singleton] at hr
      rw [hr]
      exact le_refl _
    · intro r hr
      exact absurd hr (List.not_mem_nil r)
  | cons q qs ih =>
    rw [pyMin_cons]
    by_cases hc : key q < key x
    · rw [if_pos hc]
      obtain ⟨l₁, l₂, hdec, hle, hlt⟩ := ih q
      have hxq : key (pyMin key q qs) ≤ key q := hle q (List.mem_cons_self q qs)
      refine ⟨x :: l₁, l₂, ?_, ?_, ?_⟩
      · rw [List.cons_append, ← hdec]
      · intro r hr
        rcases List.mem_cons.mp hr with h | h
        · rw [h]
          exact le_of_lt (lt_of_le_of_lt hxq hc)
        · exact hle r h
      · intro r hr
        rcases List.mem_cons.mp hr with h | h
        · rw [h]
          exact lt_of_le_of_lt hxq hc
        · exact hlt r h
    · rw [if_neg hc]
      have hxq : key x ≤ key q := le_of_not_lt hc
      obtain ⟨l₁, l₂, hdec, hle, hlt⟩ := ih x
      cases l₁ with
      | nil =>
        rw [List.nil_append] at hdec
        have hmx : x = pyMin key x qs := (List.cons.injEq _ _ _ _ ▸ hdec).1
        refine ⟨[], q :: qs, ?_, ?_, ?_⟩
        · rw [List.nil_append, ← hmx]
        · intro r hr
          rcases List.mem_cons.mp hr with h | h
          · rw [h, ← hmx]
          · rcases List.mem_cons.mp h with h' | h'
            · rw [h', ← hmx]
              exact hxq
            · exact hle r (List.mem_cons_of_mem x h')
        · intro r hr
          exact absurd hr (List.not_mem_nil r)
      | cons a l₁' =>
        rw [List.cons_append] at hdec
        have ha : a = x := ((List.cons.injEq _ _ _ _).mp hdec).1.symm
        have hqs : qs = l₁' ++ pyMin key x qs :: l₂ := ((List.cons.injEq _ _ _ _).mp hdec).2
        have hmx : key (pyMin key x qs) < key x := by
          have := hlt a (List.mem_cons_self a l₁')
          rw [ha] at this
          exact this
        refine ⟨x :: q :: l₁', l₂, ?_, ?_, ?_⟩
        · rw [List.cons_append, List.cons_append, ← hqs]
        · intro r hr
          rcases List.mem_cons.mp hr with h | h
          · rw [h]
            exact le_of_lt hmx
          · rcases List.mem_cons.mp h with h' | h'
            · rw [h']
              exact le_of_lt (lt_of_lt_of_le hmx hxq)
            · exact hle r (List.mem_cons_of_mem x h')
        · intro r hr
          rcases List.mem_cons.mp hr with h | h
          · rw [h]
            exact hmx
          · rcases List.mem_cons.mp h with h' | h'
            · rw [h']
              exact lt_of_lt_of_le hmx hxq
            · exact hlt r (List.mem_cons_of_mem a h')

/-- Squared distances are nonnegative. -/
theorem calcDistSq_nonneg (a b : Point) : 0 ≤ calcDistSq a b := by
  unfold calcDistSq
  positivity

/-- Comparing squared distances is exactly comparing Euclidean distances
(the real square root of `calcDistSq`, which is what Python's
`math.sqrt` computes): the strict order agrees. -/
theorem calcDistSq_lt_iff_sqrt_lt (a b c : Point) :
    calcDistSq a b < calcDistSq a c ↔
      Real.sqrt (calcDistSq a b) < Real.sqrt (calcDistSq a c) := by
  have hb : (0 : ℝ) ≤ (calcDistSq a b : ℚ) := by
    exact_mod_cast calcDistSq_nonneg a b
  constructor
  · intro h
    exact Real.sqrt_lt_sqrt hb (by exact_mod_cast h)
  · intro h
    by_contra hc
    push_neg at hc
    have : Real.sqrt (calcDistSq a c) ≤ Real.sqrt (calcDistSq a b) :=
      Real.sqrt_le_sqrt (by exact_mod_cast hc)
    exact absurd h (not_lt.mpr this)

/-- Comparing squared distances is exactly comparing Euclidean
distances: the weak order agrees, so minimisation and tie-breaking by
`calcDistSq` coincide with minimisation by Euclidean distance. -/
theorem calcDistSq_le_iff_sqrt_le (a b c : Point) :
    calcDistSq a b ≤ calcDistSq a c ↔
      Real.sqrt (calcDistSq a b) ≤ Real.sqrt (calcDistSq a c) := by
  rw [← not_lt, ← not_lt, not_iff_not]
  exact calcDistSq_lt_iff_sqrt_lt a c b

/-- Mapping commutes with in-range `getD`. -/
theorem getD_map_lt {α β : Type} (f : α → β) (l : List α) (i : ℕ) (h : i < l.length)
    (d : α) (d' : β) : (l.map f).getD i d' = f (l.getD i d) := by
  rw [getD_lt _ _ (by simpa using h), getD_lt _ _ h, List.getElem_map]

/-- The `original` algorithm returns one output point per input point. -/
theorem process_all_points_length (points : List Point) :
    (process_all_points points).length = points.length :=
  List.length_map points _

/-- The `sequential` algorithm returns one output point per input point. -/
theorem process_sequential_length (points : List Point) :
    (process_sequential points).length = points.length := by
  cases points with
  | nil => rfl
  | cons q qs => simp [process_sequential]

/-- The `min_sum`/`min_x` algorithms return one output point per input point. -/
theorem process_with_min_point_length (points : List Point) (use_sum : Bool) :
    (process_with_min_point points use_sum).length = points.length := by
  cases points with
  | nil => rfl
  | cons q qs => simp [process_with_min_point]

/-- Whenever `process_points` succeeds, the result has the input's length. -/
theorem process_points_ok_length (P : List Point) (m : String) (out : List Point)
    (h : process_points P m = Except.ok out) : out.length = P.length := by
  unfold process_points at h
  split at h
  · injection h with h'
    rw [← h']
    exact process_all_points_length P
  · split at h
    · injection h with h'
      rw [← h']
      exact process_sequential_length P
    · split at h
      · injection h with h'
        rw [← h']
        exact process_with_min_point_length P true
      · split at h
        · injection h with h'
          rw [← h']
          exact process_with_min_point_length P false
        · exact Except.noConfusion h

/-- `process_points` fails exactly on the four unknown-method strings,
with the `ValueError` message of `points.py`. -/
theorem process_points_error_iff (P : List Point) (m : String) :
    (∃ e, process_points P m = Except.error e) ↔
      m ∉ (["original", "sequential", "min_sum", "min_x"] : List String) := by
  unfold process_points
  constructor
  · rintro ⟨e, he⟩ hm
    simp only [List.mem_cons, List.not_mem_nil, or_false] at hm
    rcases hm with rfl | rfl | rfl | rfl
    · rw [if_pos rfl] at he
      exact Except.noConfusion he
    · rw [if_neg (by decide), if_pos rfl] at he
      exact Except.noConfusion he
    · rw [if_neg (by decide), if_neg (by decide), if_pos rfl] at he
      exact Except.noConfusion he
    · rw [if_neg (by decide), if_neg (by decide), if_neg (by decide), if_pos rfl] at he
      exact Except.noConfusion he
  · intro hm
    simp only [List.mem_cons, List.not_mem_nil, or_false, not_or] at hm
    obtain ⟨h1, h2, h3, h4⟩ := hm
    rw [if_neg h1, if_neg h2, if_neg h3, if_neg h4]
    exact ⟨_, rfl⟩

/-- Every known method makes `process_points` succeed. -/
theorem process_points_known_ok (P : List Point) (m : String)
    (hm : m ∈ (["original", "sequential", "min_sum", "min_x"] : List String)) :
    ∃ out, process_points P m = Except.ok out := by
  simp only [List.mem_cons, List.not_mem_nil, or_false] at hm
  rcases hm with rfl | rfl | rfl | rfl
  · exact ⟨process_all_points P, rfl⟩
  · exact ⟨process_sequential P, rfl⟩
  · exact ⟨process_with_min_point P true, rfl⟩
  · exact ⟨process_with_min_point P false, rfl⟩

/-- The only exception `process_points` ever raises is the
unknown-method `ValueError` with the message of `points.py`. -/
theorem process_points_error_shape (P : List Point) (m : String) (e : PyErr)
    (h : process_points P m = Except.error e) :
    e = PyErr.valueError ("Неизвестный метод: " ++ m) := by
  unfold process_points at h
  split at h
  · exact Except.noConfusion h
  · split at h
    · exact Except.noConfusion h
    · split at h
      · exact Except.noConfusion h
      · split at h
        · exact Except.noConfusion h
        · injection h with h'
          exact h'.symm

/-- The dispatcher's `process` branch on a successful `process_points`
call: a success response carrying the result and the method-dependent
`extra_info`. -/
theorem handle_request_process_ok (pts : Option (List Point)) (mth : Option String)
    (res : List Point)
    (hpp : process_points (pts.getD []) (mth.getD "original") = Except.ok res) :
    handle_request ⟨some "process", pts, mth⟩ =
      Except.ok ⟨Status.success, none, some res,
        (if mth.getD "original" = "min_sum" then
          some ⟨"min_sum", server_min_sum_point (pts.getD [])⟩
        else if mth.getD "original" = "min_x" then
          some ⟨"min_x", server_min_x_point (pts.getD [])⟩
        else none), none⟩ := by
  rw [handle_request, if_pos rfl]
  simp only []
  rw [hpp]

/-- The dispatcher's `process` branch re-raises an exception that is not
a `PointsProcessorException`. -/
theorem handle_request_process_error (pts : Option (List Point)) (mth : Option String)
    (e : PyErr)
    (hpp : process_points (pts.getD []) (mth.getD "original") = Except.error e)
    (hv : e.isPointsProcessor = false) :
    handle_request ⟨some "process", pts, mth⟩ = Except.error e := by
  rw [handle_request, if_pos rfl]
  simp only []
  rw [hpp]
  simp only [hv, Bool.false_eq_true, if_false]

/-- The `test` branch always succeeds (all four methods are known). -/
theorem handle_test_ok : ∃ v, handle_test = Except.ok v := by
  exact ⟨_, by with_unfolding_all rfl⟩

/-- C5: for every point list `P` and every index `i` with
`0 ≤ i < len(P)`, `combine(P, sequential)[i]` equals
`P[i] + P[(i+1) mod len(P)]` coordinatewise, and
`combine([], sequential)` is the empty list. -/
theorem sequential_combine_spec :
    (∀ (P : List Point) (i : ℕ), i < P.length →
      (process_sequential P).getD i origin =
        add_two_points (P.getD i origin) (P.getD ((i + 1) % P.length) origin))
    ∧ process_sequential [] = [] := by
  constructor
  · intro P i hi
    have hne : P.isEmpty = false := by
      cases P
      · exact absurd hi (by simp)
      · rfl
    rw [process_sequential, hne]
    simp only [Bool.false_eq_true, if_false]
    rw [getD_map_lt _ _ i (by simpa using hi) 0 origin,
      getD_lt _ _ (by simpa using hi) 0, List.getElem_range]
  · rfl

/-- Witness for C5 at the spec's scenario-3 input, index 0. -/
theorem sequential_combine_spec_witness :
    (process_sequential [(1, 1), (4, 5), (2, 3)]).getD 0 origin =
      add_two_points (([(1, 1), (4, 5), (2, 3)] : List Point).getD 0 origin)
        (([(1, 1), (4, 5), (2, 3)] : List Point).getD
          ((0 + 1) % ([(1, 1), (4, 5), (2, 3)] : List Point).length) origin) :=
  sequential_combine_spec.1 [(1, 1), (4, 5), (2, 3)] 0 (by decide)

/-- C8: for every non-empty point list `P`, `combine(P, min_sum)[i]`
equals `P[i]` plus the first point of `P` in input order that minimises
the coordinate sum `x + y`, for all `i`. -/
theorem min_sum_combine_spec (P : List Point) (h : P ≠ []) :
    ∃ s l₁ l₂, P = l₁ ++ s :: l₂ ∧
      (∀ r ∈ P, s.1 + s.2 ≤ r.1 + r.2) ∧
      (∀ r ∈ l₁, s.1 + s.2 < r.1 + r.2) ∧
      ∀ i : ℕ, i < P.length →
        (process_with_min_point P true).getD i origin =
          add_two_points (P.getD i origin) s := by
  cases P with
  | nil => exact absurd rfl h
  | cons q qs =>
    obtain ⟨l₁, l₂, hdec, hle, hlt⟩ := pyMin_firstMin (fun p => p.1 + p.2) q qs
    refine ⟨pyMin (fun p => p.1 + p.2) q qs, l₁, l₂, hdec, hle, hlt, ?_⟩
    intro i hi
    have hrw : process_with_min_point (q :: qs) true =
        (q :: qs).map (fun p => add_two_points p (pyMin (fun p => p.1 + p.2) q qs)) := rfl
    rw [hrw, getD_map_lt _ _ i hi origin origin]

/-- Witness for C8 on the docstring's point set `[(3,5),(1,2),(4,1)]`. -/
theorem min_sum_combine_spec_witness :
    ∃ s l₁ l₂, ([(3, 5), (1, 2), (4, 1)] : List Point) = l₁ ++ s :: l₂ ∧
      (∀ r ∈ ([(3, 5), (1, 2), (4, 1)] : List Point), s.1 + s.2 ≤ r.1 + r.2) ∧
      (∀ r ∈ l₁, s.1 + s.2 < r.1 + r.2) ∧
      ∀ i : ℕ, i < ([(3, 5), (1, 2), (4, 1)] : List Point).length →
        (process_with_min_point [(3, 5), (1, 2), (4, 1)] true).getD i origin =
          add_two_points (([(3, 5), (1, 2), (4, 1)] : List Point).getD i origin) s :=
  min_sum_combine_spec [(3, 5), (1, 2), (4, 1)] (by simp)

/-- C6: for every non-empty point list `P`, `combine(P, min_x)[i]`
equals `P[i]` plus the single reference point minimal in the
lexicographic `(x, y)` order (minimal x, ties broken by minimal y,
remaining ties by first occurrence in input order), for all `i`. -/
theorem min_x_combine_spec (P : List Point) (h : P ≠ []) :
    ∃ s l₁ l₂, P = l₁ ++ s :: l₂ ∧
      (∀ r ∈ P, s.1 < r.1 ∨ (s.1 = r.1 ∧ s.2 ≤ r.2)) ∧
      (∀ r ∈ l₁, s.1 < r.1 ∨ (s.1 = r.1 ∧ s.2 < r.2)) ∧
      ∀ i : ℕ, i < P.length →
        (process_with_min_point P false).getD i origin =
          add_two_points (P.getD i origin) s := by
  cases P with
  | nil => exact absurd rfl h
  | cons q qs =>
    obtain ⟨l₁, l₂, hdec, hle, hlt⟩ := pyMin_firstMin (fun p => toLex (p.1, p.2)) q qs
    refine ⟨pyMin (fun p => toLex (p.1, p.2)) q qs, l₁, l₂, hdec, ?_, ?_, ?_⟩
    · intro r hr
      have := hle r hr
      rw [Prod.Lex.le_iff] at this
      exact this
    · intro r hr
      have := hlt r hr
      rw [Prod.Lex.lt_iff] at this
      exact this
    · intro i hi
      have hrw : process_with_min_point (q :: qs) false =
          (q :: qs).map (fun p => add_two_points p (pyMin (fun p => toLex (p.1, p.2)) q qs)) :=
        rfl
      rw [hrw, getD_map_lt _ _ i hi origin origin]

/-- Witness for C6 on a point set with an x tie, `[(0,5),(0,1),(3,0)]`. -/
theorem min_x_combine_spec_witness :
    ∃ s l₁ l₂, ([(0, 5), (0, 1), (3, 0)] : List Point) = l₁ ++ s :: l₂ ∧
      (∀ r ∈ ([(0, 5), (0, 1), (3, 0)] : List Point),
        s.1 < r.1 ∨ (s.1 = r.1 ∧ s.2 ≤ r.2)) ∧
      (∀ r ∈ l₁, s.1 < r.1 ∨ (s.1 = r.1 ∧ s.2 < r.2)) ∧
      ∀ i : ℕ, i < ([(0, 5), (0, 1), (3, 0)] : List Point).length →
        (process_with_min_point [(0, 5), (0, 1), (3, 0)] false).getD i origin =
          add_two_points (([(0, 5), (0, 1), (3, 0)] : List Point).getD i origin) s :=
  min_x_combine_spec [(0, 5), (0, 1), (3, 0)] (by simp)

/-- C4: for every point list `P` and index `i`, the `original` method
leaves `P[i]` unchanged when no point of `P` differs from it in value,
and otherwise adds the first point, among those value-distinct from
`P[i]`, of minimal Euclidean distance to `P[i]` (`calcDistSq` induces
exactly the Euclidean-distance order); concretely on
`[(0,0),(2,0),(5,5)]` the partner of `(0,0)` is `(2,0)`. -/
theorem original_combine_spec :
    (∀ (P : List Point) (i : ℕ), i < P.length →
      ((P.filter (fun q => q ≠ P.getD i origin) = [] →
          (process_all_points P).getD i origin = P.getD i origin)
        ∧ (P.filter (fun q => q ≠ P.getD i origin) ≠ [] →
          ∃ q, FirstMin (fun r => calcDistSq (P.getD i origin) r)
              (P.filter (fun q => q ≠ P.getD i origin)) q ∧
            (process_all_points P).getD i origin =
              add_two_points (P.getD i origin) q)))
    ∧ (process_all_points [(0, 0), (2, 0), (5, 5)]).getD 0 origin = (2, 0) := by
  constructor
  · intro P i hi
    have hout : (process_all_points P).getD i origin =
        (fun p => match find_closest p P with
          | some closest => add_two_points p closest
          | none => p) (P.getD i origin) := by
      rw [process_all_points]
      exact getD_map_lt _ _ i hi origin origin
    constructor
    · intro hfil
      have hnone : find_closest (P.getD i origin) P = none := by
        unfold find_closest
        rw [hfil]
        split
        · rfl
        · rfl
      rw [hout]
      simp only [hnone]
    · intro hfil
      cases hfl : P.filter (fun q => q ≠ P.getD i origin) with
      | nil => exact absurd hfl hfil
      | cons q qs =>
        refine ⟨pyMin (fun r => calcDistSq (P.getD i origin) r) q qs, ?_, ?_⟩
        · exact pyMin_firstMin _ q qs
        · have hq : q ∈ P ∧ q ≠ P.getD i origin := by
            have := List.mem_filter.mp (hfl ▸ List.mem_cons_self q qs)
            exact ⟨this.1, by simpa using this.2⟩
          have hlen : 1 < P.length := by
            rcases P with _ | ⟨a, _ | ⟨b, t⟩⟩
            · exact absurd hi (by simp)
            · have hqa : q = a := by simpa using hq.1
              have hi0 : i = 0 := by
                have h1 : i < 1 := by simpa using hi
                omega
              have hpa : ([a] : List Point).getD i origin = a := by
                rw [hi0]
                rfl
              exact absurd (hqa.trans hpa.symm) hq.2
            · simp
          have hsome : find_closest (P.getD i origin) P =
              some (pyMin (fun r => calcDistSq (P.getD i origin) r) q qs) := by
            unfold find_closest
            rw [if_neg (not_le.mpr hlen), hfl]
          rw [hout]
          simp only [hsome]
  · with_unfolding_all rfl

/-- Witness for C4 at the spec's scenario-2 input, index 0. -/
theorem original_combine_spec_witness :
    (([(0, 0), (2, 0), (5, 5)] : List Point).filter
        (fun q => q ≠ ([(0, 0), (2, 0), (5, 5)] : List Point).getD 0 origin) ≠ [] →
      ∃ q, FirstMin
          (fun r => calcDistSq (([(0, 0), (2, 0), (5, 5)] : List Point).getD 0 origin) r)
          (([(0, 0), (2, 0), (5, 5)] : List Point).filter
            (fun q => q ≠ ([(0, 0), (2, 0), (5, 5)] : List Point).getD 0 origin)) q ∧
        (process_all_points [(0, 0), (2, 0), (5, 5)]).getD 0 origin =
          add_two_points (([(0, 0), (2, 0), (5, 5)] : List Point).getD 0 origin) q) :=
  (original_combine_spec.1 [(0, 0), (2, 0), (5, 5)] 0 (by decide)).2

/-- C9: for every point list and every known method, `combine` keeps the
list length (so output element `i` corresponds to input element `i`),
and every successful `process` response's `result` has the same length
as the request's `points`. -/
theorem combine_preserves_length :
    (∀ (P : List Point) (m : String),
        m ∈ (["original", "sequential", "min_sum", "min_x"] : List String) →
        ∃ out, process_points P m = Except.ok out ∧ out.length = P.length)
    ∧ (∀ (pts : Option (List Point)) (mth : Option String) (r : Response)
        (out : List Point),
        handle_request ⟨some "process", pts, mth⟩ = Except.ok r →
        r.result = some out → out.length = (pts.getD []).length) := by
  constructor
  · intro P m hm
    simp only [List.mem_cons, List.not_mem_nil, or_false] at hm
    rcases hm with rfl | rfl | rfl | rfl
    · exact ⟨process_all_points P, rfl, process_all_points_length P⟩
    · exact ⟨process_sequential P, rfl, process_sequential_length P⟩
    · exact ⟨process_with_min_point P true, rfl, process_with_min_point_length P true⟩
    · exact ⟨process_with_min_point P false, rfl, process_with_min_point_length P false⟩
  · intro pts mth r out h hr
    rw [handle_request, if_pos rfl] at h
    simp only [] at h
    cases hpp : process_points (pts.getD []) (mth.getD "original") with
    | ok result =>
      rw [hpp] at h
      simp only [] at h
      injection h with h'
      rw [← h'] at hr
      have : some result = some out := hr
      injection this with h''
      rw [← h'']
      exact process_points_ok_length _ _ _ hpp
    | error e =>
      rw [hpp] at h
      by_cases hpe : e.isPointsProcessor = true
      · simp only [hpe, if_true] at h
        injection h with h'
        rw [← h'] at hr
        exact Option.noConfusion hr
      · simp only [hpe, Bool.false_eq_true, if_false] at h
        exact Except.noConfusion h

/-- Witness for C9 on a concrete method, point list and request. -/
theorem combine_preserves_length_witness :
    (∃ out, process_points [(1, 1), (4, 5)] "min_x" = Except.ok out ∧
      out.length = ([(1, 1), (4, 5)] : List Point).length) ∧
    ([(2, 2), (5, 6)] : List Point).length =
      ((some [(1, 1), (4, 5)] : Option (List Point)).getD []).length := by
  constructor
  · exact combine_preserves_length.1 [(1, 1), (4, 5)] "min_x" (by decide)
  · exact combine_preserves_length.2 (some [(1, 1), (4, 5)]) (some "min_sum")
      ⟨Status.success, none, some [(2, 2), (5, 6)], some ⟨"min_sum", some (1, 1)⟩, none⟩
      [(2, 2), (5, 6)] (by with_unfolding_all rfl) rfl


/-- C1 counterexample: a `process` request with empty points and method
`min_sum` does not fail with an `EmptyPointSet` error — `combine`
returns the empty list and the dispatcher answers with a success
response, performing no non-emptiness validation. -/
theorem min_sum_empty_succeeds_counterexample :
    process_points [] "min_sum" = Except.ok [] ∧
    handle_request ⟨some "process", some [], some "min_sum"⟩ =
      Except.ok ⟨Status.success, none, some [], some ⟨"min_sum", none⟩, none⟩ := by
  constructor
  · with_unfolding_all rfl
  · with_unfolding_all rfl

/-- C1 amended: over an empty point sequence every one of the four
methods — `min_sum` and `min_x` included — returns an empty result
rather than failing, and the dispatcher returns a success response with
an empty result (the reported reference point, when present, is `None`). -/
theorem empty_points_all_methods_empty_result :
    ∀ m ∈ (["original", "sequential", "min_sum", "min_x"] : List String),
      process_points [] m = Except.ok [] ∧
      ∃ extra, handle_request ⟨some "process", some [], some m⟩ =
        Except.ok ⟨Status.success, none, some [], extra, none⟩ := by
  intro m hm
  simp only [List.mem_cons, List.not_mem_nil, or_false] at hm
  rcases hm with rfl | rfl | rfl | rfl
  · exact ⟨by with_unfolding_all rfl, none, by with_unfolding_all rfl⟩
  · exact ⟨by with_unfolding_all rfl, none, by with_unfolding_all rfl⟩
  · exact ⟨by with_unfolding_all rfl, some ⟨"min_sum", none⟩, by with_unfolding_all rfl⟩
  · exact ⟨by with_unfolding_all rfl, some ⟨"min_x", none⟩, by with_unfolding_all rfl⟩

/-- Witness for C1 (amended) at method `min_x`. -/
theorem empty_points_all_methods_empty_result_witness :
    process_points [] "min_x" = Except.ok [] ∧
    ∃ extra, handle_request ⟨some "process", some [], some "min_x"⟩ =
      Except.ok ⟨Status.success, none, some [], extra, none⟩ :=
  empty_points_all_methods_empty_result "min_x" (by decide)

/-- C2 counterexample: on a `process` request with an unknown method the
`ValueError` raised by `process_points` is not caught inside the
dispatcher — `handle_request` raises it past its boundary instead of
returning an error response. -/
theorem unknown_method_raises_past_dispatcher :
    handle_request ⟨some "process", some [(0, 0)], some "bogus"⟩ =
      Except.error (PyErr.valueError "Неизвестный метод: bogus") := by
  with_unfolding_all rfl

/-- C2 amended: the dispatcher raises past its boundary exactly on a
`process` request whose (defaulted) method is not one of the four known
values — the unknown-method `ValueError` — and the connection handler's
`except Exception` arm catches every such escape and converts it into an
error response (leaving the connection open). -/
theorem dispatcher_error_paths_characterized :
    ∀ req : Request,
      ((∃ e, handle_request req = Except.error e) ↔
        (req.action = some "process" ∧
          req.method.getD "original" ∉
            (["original", "sequential", "min_sum", "min_x"] : List String)))
      ∧ ∀ e, handle_request req = Except.error e →
          handle_message req =
            (⟨Status.error, some ("Ошибка: " ++ e.msg), none, none, none⟩, false) := by
  intro req
  rcases req with ⟨act, pts, mth⟩
  by_cases hp : act = some "process"
  · subst hp
    constructor
    · constructor
      · rintro ⟨e, he⟩
        refine ⟨rfl, ?_⟩
        intro hm
        obtain ⟨out, hout⟩ := process_points_known_ok (pts.getD []) (mth.getD "original") hm
        rw [handle_request_process_ok pts mth out hout] at he
        exact Except.noConfusion he
      · rintro ⟨-, hm⟩
        obtain ⟨e, hpp⟩ :=
          (process_points_error_iff (pts.getD []) (mth.getD "original")).mpr hm
        have hshape := process_points_error_shape _ _ _ hpp
        have hv : e.isPointsProcessor = false := by
          rw [hshape]
          rfl
        exact ⟨e, handle_request_process_error pts mth e hpp hv⟩
    · intro e he
      unfold handle_message
      rw [he]
  · have hok : ∃ r, handle_request ⟨act, pts, mth⟩ = Except.ok r := by
      rw [handle_request, if_neg hp]
      by_cases ht : act = some "test"
      · rw [if_pos ht]
        exact handle_test_ok
      · rw [if_neg ht]
        by_cases hg : act = some "ping"
        · rw [if_pos hg]
          exact ⟨_, rfl⟩
        · rw [if_neg hg]
          exact ⟨_, rfl⟩
    obtain ⟨r, hr⟩ := hok
    constructor
    · constructor
      · rintro ⟨e, he⟩
        rw [hr] at he
        exact Except.noConfusion he
      · rintro ⟨hact, -⟩
        exact absurd hact hp
    · intro e he
      rw [hr] at he
      exact Except.noConfusion he

/-- Witness for C2 (amended): the escaped unknown-method `ValueError`
is converted to an error response by the connection handler, which does
not close the connection. -/
theorem dispatcher_error_paths_characterized_witness :
    handle_message ⟨some "process", some [(1, 1)], some "bogus"⟩ =
      (⟨Status.error,
        some ("Ошибка: " ++ (PyErr.valueError "Неизвестный метод: bogus").msg),
        none, none, none⟩, false) :=
  (dispatcher_error_paths_characterized ⟨some "process", some [(1, 1)], some "bogus"⟩).2
    (PyErr.valueError "Неизвестный метод: bogus") (by with_unfolding_all rfl)

/-- C3 counterexample: the dispatcher has no `exit` branch — an `exit`
request falls through to the unknown-action reply, an error response,
not a success acknowledgment. -/
theorem exit_returns_error_response :
    handle_request ⟨some "exit", none, none⟩ =
      Except.ok ⟨Status.error, some "Неизвестное действие: exit", none, none, none⟩
    ∧ Status.error ≠ Status.success := by
  constructor
  · with_unfolding_all rfl
  · decide

/-- C3 amended: for every request with action `exit` (whatever the other
fields), the dispatcher replies with the unknown-action error response,
and the connection handler still closes the connection after sending
that reply. -/
theorem exit_unknown_action_reply_then_close (pts : Option (List Point))
    (mth : Option String) :
    handle_message ⟨some "exit", pts, mth⟩ =
      (⟨Status.error, some "Неизвестное действие: exit", none, none, none⟩, true) := by
  rfl

/-- C7 counterexample: on `[(0,5),(0,1)]` with method `min_x`, `combine`
adds the lexicographically minimal point `(0,1)` to every input, but the
response reports `(0,5)` (the first point of minimal x, no y tie-break)
as the selected point — and adding the reported point to every input
would not give the actual result. -/
theorem min_x_reported_point_mismatch :
    handle_request ⟨some "process", some [(0, 5), (0, 1)], some "min_x"⟩ =
      Except.ok ⟨Status.success, none, some [(0, 6), (0, 2)],
        some ⟨"min_x", some (0, 5)⟩, none⟩
    ∧ [((0 : ℚ), (6 : ℚ)), (0, 2)] ≠
        ([(0, 5), (0, 1)] : List Point).map (fun p => add_two_points p (0, 5)) := by
  constructor
  · with_unfolding_all rfl
  · have hmap : ([(0, 5), (0, 1)] : List Point).map (fun p => add_two_points p (0, 5)) =
        [(0, 10), (0, 6)] := by with_unfolding_all rfl
    rw [hmap]
    decide

/-- C7 amended: for a successful `process` request with non-empty
points, the response carries a reported reference point; for `min_sum`
it is exactly the point `combine` added to every input, while for
`min_x` the reported point is the first input point of minimal
x-coordinate (no y tie-break), whereas `combine` added the
lexicographically minimal point — the two coincide only in the absence
of decisive x ties. -/
theorem reported_reference_point_spec :
    ∀ P : List Point, P ≠ [] →
      (∃ s, handle_request ⟨some "process", some P, some "min_sum"⟩ =
          Except.ok ⟨Status.success, none,
            some (P.map (fun p => add_two_points p s)), some ⟨"min_sum", some s⟩, none⟩
        ∧ FirstMin (fun p => p.1 + p.2) P s)
      ∧ (∃ s q, handle_request ⟨some "process", some P, some "min_x"⟩ =
          Except.ok ⟨Status.success, none,
            some (P.map (fun p => add_two_points p s)), some ⟨"min_x", some q⟩, none⟩
        ∧ FirstMin (fun p => toLex (p.1, p.2)) P s ∧ FirstMin (fun p => p.1) P q) := by
  intro P h
  cases P with
  | nil => exact absurd rfl h
  | cons x xs =>
    constructor
    · exact ⟨pyMin (fun p => p.1 + p.2) x xs, by with_unfolding_all rfl,
        pyMin_firstMin _ x xs⟩
    · exact ⟨pyMin (fun p => toLex (p.1, p.2)) x xs, pyMin (fun p => p.1) x xs,
        by with_unfolding_all rfl, pyMin_firstMin _ x xs, pyMin_firstMin _ x xs⟩

/-- Witness for C7 (amended) on the point set `[(3,5),(1,2),(4,1)]`. -/
theorem reported_reference_point_spec_witness :
    ∃ s, handle_request ⟨some "process", some [(3, 5), (1, 2), (4, 1)], some "min_sum"⟩ =
        Except.ok ⟨Status.success, none,
          some (([(3, 5), (1, 2), (4, 1)] : List Point).map
            (fun p => add_two_points p s)),
          some ⟨"min_sum", some s⟩, none⟩
      ∧ FirstMin (fun p => p.1 + p.2) [(3, 5), (1, 2), (4, 1)] s :=
  (reported_reference_point_spec [(3, 5), (1, 2), (4, 1)] (by simp)).1

/-- C10: a `process` request with the `method` field absent behaves
exactly as with method `original`, one with the `points` field absent
behaves exactly as with an empty point list, and with both fields absent
the dispatcher still answers with a success response (no validation
error for missing fields). -/
theorem missing_fields_defaults :
    (∀ pts : Option (List Point),
      handle_request ⟨some "process", pts, none⟩ =
        handle_request ⟨some "process", pts, some "original"⟩)
    ∧ (∀ mth : Option String,
      handle_request ⟨some "process", none, mth⟩ =
        handle_request ⟨some "process", some [], mth⟩)
    ∧ handle_request ⟨some "process", none, none⟩ =
        Except.ok ⟨Status.success, none, some [], none, none⟩ := by
  refine ⟨fun pts => rfl, fun mth => rfl, ?_⟩
  with_unfolding_all rfl

end PointsServer
